import Mathlib

/-!
Verification of the Dibites save-file ingestion pipeline
(`Save_File_Monitor.py` together with `dashboard/utils.py`).

The embedding models every archive member as an optional JSON value:
`some j` means the member is present in the zip and its bytes survive
decode / sanitize / `json.loads`, yielding the value `j`; `none` means the
member is missing or any of those steps raised.  Each extraction stage of
`process_zip` is translated from the Python source, including the caught
exception paths, and the three per-simulation tables are modelled as lists
of rows (their persisted row contents).  Pandas floating point cells are
modelled with rationals.
-/

/-- Result of `json.loads` on one archive member. -/
inductive JSON where
  | null : JSON
  | bool : Bool → JSON
  | num : ℚ → JSON
  | str : String → JSON
  | arr : List JSON → JSON
  | obj : List (String × JSON) → JSON

mutual

/-- Boolean equality on JSON values (structural). -/
def jsonBeq : JSON → JSON → Bool
  | .null, .null => true
  | .bool a, .bool b => a == b
  | .num a, .num b => a == b
  | .str a, .str b => a == b
  | .arr xs, .arr ys => jlistBeq xs ys
  | .obj xs, .obj ys => jobjBeq xs ys
  | _, _ => false

/-- Boolean equality on lists of JSON values. -/
def jlistBeq : List JSON → List JSON → Bool
  | [], [] => true
  | x :: xs, y :: ys => jsonBeq x y && jlistBeq xs ys
  | _, _ => false

/-- Boolean equality on JSON object entry lists. -/
def jobjBeq : List (String × JSON) → List (String × JSON) → Bool
  | [], [] => true
  | (k, v) :: xs, (k2, v2) :: ys => k == k2 && jsonBeq v v2 && jobjBeq xs ys
  | _, _ => false

end

mutual

theorem jsonBeq_refl : (a : JSON) → jsonBeq a a = true
  | .null => rfl
  | .bool b => by simp [jsonBeq]
  | .num q => by simp [jsonBeq]
  | .str s => by simp [jsonBeq]
  | .arr xs => by simpa [jsonBeq] using jlistBeq_refl xs
  | .obj xs => by simpa [jsonBeq] using jobjBeq_refl xs

theorem jlistBeq_refl : (l : List JSON) → jlistBeq l l = true
  | [] => rfl
  | x :: xs => by
      simp only [jlistBeq, Bool.and_eq_true]
      exact ⟨jsonBeq_refl x, jlistBeq_refl xs⟩

theorem jobjBeq_refl : (l : List (String × JSON)) → jobjBeq l l = true
  | [] => rfl
  | (k, v) :: xs => by
      simp only [jobjBeq, Bool.and_eq_true]
      exact ⟨⟨by simp, jsonBeq_refl v⟩, jobjBeq_refl xs⟩

end

mutual

theorem jsonBeq_eq : (a b : JSON) → jsonBeq a b = true → a = b
  | .null, .null, _ => rfl
  | .bool a, .bool b, h => by simpa [jsonBeq] using h
  | .num a, .num b, h => by simpa [jsonBeq] using h
  | .str a, .str b, h => by simpa [jsonBeq] using h
  | .arr xs, .arr ys, h => by
      have := jlistBeq_eq xs ys (by simpa [jsonBeq] using h)
      rw [this]
  | .obj xs, .obj ys, h => by
      have := jobjBeq_eq xs ys (by simpa [jsonBeq] using h)
      rw [this]
  | .null, .bool _, h => by simp [jsonBeq] at h
  | .null, .num _, h => by simp [jsonBeq] at h
  | .null, .str _, h => by simp [jsonBeq] at h
  | .null, .arr _, h => by simp [jsonBeq] at h
  | .null, .obj _, h => by simp [jsonBeq] at h
  | .bool _, .null, h => by simp [jsonBeq] at h
  | .bool _, .num _, h => by simp [jsonBeq] at h
  | .bool _, .str _, h => by simp [jsonBeq] at h
  | .bool _, .arr _, h => by simp [jsonBeq] at h
  | .bool _, .obj _, h => by simp [jsonBeq] at h
  | .num _, .null, h => by simp [jsonBeq] at h
  | .num _, .bool _, h => by simp [jsonBeq] at h
  | .num _, .str _, h => by simp [jsonBeq] at h
  | .num _, .arr _, h => by simp [jsonBeq] at h
  | .num _, .obj _, h => by simp [jsonBeq] at h
  | .str _, .null, h => by simp [jsonBeq] at h
  | .str _, .bool _, h => by simp [jsonBeq] at h
  | .str _, .num _, h => by simp [jsonBeq] at h
  | .str _, .arr _, h => by simp [jsonBeq] at h
  | .str _, .obj _, h => by simp [jsonBeq] at h
  | .arr _, .null, h => by simp [jsonBeq] at h
  | .arr _, .bool _, h => by simp [jsonBeq] at h
  | .arr _, .num _, h => by simp [jsonBeq] at h
  | .arr _, .str _, h => by simp [jsonBeq] at h
  | .arr _, .obj _, h => by simp [jsonBeq] at h
  | .obj _, .null, h => by simp [jsonBeq] at h
  | .obj _, .bool _, h => by simp [jsonBeq] at h
  | .obj _, .num _, h => by simp [jsonBeq] at h
  | .obj _, .str _, h => by simp [jsonBeq] at h
  | .obj _, .arr _, h => by simp [jsonBeq] at h

theorem jlistBeq_eq : (xs ys : List JSON) → jlistBeq xs ys = true → xs = ys
  | [], [], _ => rfl
  | x :: xs, y :: ys, h => by
      simp only [jlistBeq, Bool.and_eq_true] at h
      rw [jsonBeq_eq x y h.1, jlistBeq_eq xs ys h.2]
  | [], _ :: _, h => by simp [jlistBeq] at h
  | _ :: _, [], h => by simp [jlistBeq] at h

theorem jobjBeq_eq : (xs ys : List (String × JSON)) → jobjBeq xs ys = true → xs = ys
  | [], [], _ => rfl
  | (k, v) :: xs, (k2, v2) :: ys, h => by
      simp only [jobjBeq, Bool.and_eq_true] at h
      have hk : k = k2 := by simpa using h.1.1
      rw [hk, jsonBeq_eq v v2 h.1.2, jobjBeq_eq xs ys h.2]
  | [], _ :: _, h => by simp [jobjBeq] at h
  | _ :: _, [], h => by simp [jobjBeq] at h

end

instance : DecidableEq JSON := fun a b =>
  if h : jsonBeq a b = true then isTrue (jsonBeq_eq a b h)
  else isFalse (fun he => by subst he; exact h (jsonBeq_refl a))

/-- Python dict lookup on a parsed JSON object (`json.loads` leaves keys
unique, so the first match is the value). `none` models a missing key. -/
def lookupKey : List (String × JSON) → String → Option JSON
  | [], _ => none
  | (k, v) :: rest, key => if k = key then some v else lookupKey rest key

/-- Python truthiness of a JSON value, as used by `if new_species:` and
`if zones and ...:` in `process_zip`. -/
def jsonTruthy (v : JSON) : Bool :=
  match v with
  | .null => false
  | .bool b => b
  | .num q => decide (q ≠ 0)
  | .str s => decide (s ≠ "")
  | .arr l => !l.isEmpty
  | .obj kvs => !kvs.isEmpty

/-- Values a Python `for` loop yields when iterating a JSON value: a list
yields its elements, a dict its keys, a string its one-character strings;
anything else raises `TypeError` (`none`). -/
def iterElems (v : JSON) : Option (List JSON) :=
  match v with
  | .arr l => some l
  | .obj kvs => some (kvs.map (fun kv => JSON.str kv.1))
  | .str s => some (s.data.map (fun c => JSON.str (String.mk [c])))
  | _ => none

/-- Continuation byte test for UTF-8 decoding. -/
def isCont (b : Nat) : Bool := decide (0x80 ≤ b ∧ b ≤ 0xBF)

/-- Fueled decoding loop for `utf8DecodeIgnore`.  The fuel only serves
structural recursion; every step consumes at least one byte, so fuel equal
to the byte count never runs out. -/
def utf8DecodeFuel : Nat → List Nat → List Nat
  | 0, _ => []
  | _ + 1, [] => []
  | fuel + 1, b :: rest =>
    if b ≤ 0x7F then b :: utf8DecodeFuel fuel rest
    else if 0xC2 ≤ b ∧ b ≤ 0xDF then
      match rest with
      | [] => []
      | b2 :: r2 =>
        if isCont b2 then ((b - 0xC0) * 0x40 + (b2 - 0x80)) :: utf8DecodeFuel fuel r2
        else utf8DecodeFuel fuel rest
    else if 0xE0 ≤ b ∧ b ≤ 0xEF then
      match rest with
      | [] => []
      | b2 :: r2 =>
        if (if b = 0xE0 then decide (0xA0 ≤ b2 ∧ b2 ≤ 0xBF)
            else if b = 0xED then decide (0x80 ≤ b2 ∧ b2 ≤ 0x9F)
            else isCont b2) then
          match r2 with
          | [] => []
          | b3 :: r3 =>
            if isCont b3 then
              ((b - 0xE0) * 0x1000 + (b2 - 0x80) * 0x40 + (b3 - 0x80)) :: utf8DecodeFuel fuel r3
            else utf8DecodeFuel fuel r2
        else utf8DecodeFuel fuel rest
    else if 0xF0 ≤ b ∧ b ≤ 0xF4 then
      match rest with
      | [] => []
      | b2 :: r2 =>
        if (if b = 0xF0 then decide (0x90 ≤ b2 ∧ b2 ≤ 0xBF)
            else if b = 0xF4 then decide (0x80 ≤ b2 ∧ b2 ≤ 0x8F)
            else isCont b2) then
          match r2 with
          | [] => []
          | b3 :: r3 =>
            if isCont b3 then
              match r3 with
              | [] => []
              | b4 :: r4 =>
                if isCont b4 then
                  ((b - 0xF0) * 0x40000 + (b2 - 0x80) * 0x1000 + (b3 - 0x80) * 0x40 + (b4 - 0x80))
                    :: utf8DecodeFuel fuel r4
                else utf8DecodeFuel fuel r3
            else utf8DecodeFuel fuel r2
        else utf8DecodeFuel fuel rest
    else utf8DecodeFuel fuel rest

/-- Model of `bytes.decode("utf-8", errors="ignore")` (line 24 and its
twins): decodes well-formed UTF-8 sequences to code points and silently
skips invalid subsequences (the offending start byte together with the
valid continuation bytes already consumed), as the CPython ignore error
handler does. -/
def utf8DecodeIgnore (bytes : List Nat) : List Nat :=
  utf8DecodeFuel bytes.length bytes

/-- Model of the sanitization pass `re.sub(r"[^\x20-\x7E]", "", input_str)`
(line 25 and its twins): keeps exactly the printable ASCII code points. -/
def removeNonPrintable (cps : List Nat) : List Nat :=
  cps.filter (fun c => decide (0x20 ≤ c ∧ c ≤ 0x7E))

/-- Lines 24 and 25 of `process_zip`: lossy decode then sanitize.  The
result is what `json.loads` receives. -/
def cleanDecode (bytes : List Nat) : List Nat :=
  removeNonPrintable (utf8DecodeIgnore bytes)

/-- One archive on disk, as seen by `process_zip` after zip member access
and JSON parsing.  For each fixed member, `some j` means the member opens,
decodes and parses to the JSON value `j`; `none` means the member is
missing from the zip or raises while being read or parsed.  `bb8Members`
lists the parse results of the `bibites/*.bb8` members in `namelist`
order. -/
structure Archive where
  settingsMember : Option JSON
  speciesMember : Option JSON
  sceneMember : Option JSON
  bb8Members : List (Option JSON)
  pelletsMember : Option JSON

/-- Lines 27 to 36: simulation identity from `settings.bb8settings`.
Every caught failure (missing member, parse failure, missing or empty or
non-list `zones`, first zone not a dict, missing `name`) degrades to the
constant `"default_sim"`.  A present `name` whose value is not a string is
the one uncaught case: `os.path.join` at line 39 then raises inside the
outer `try`, aborting the whole archive — modelled as `none`. -/
def extractSimName (m : Option JSON) : Option String :=
  match m with
  | none => some "default_sim"
  | some (.obj kvs) =>
    match lookupKey kvs "zones" with
    | some (.arr (z0 :: _)) =>
      match z0 with
      | .obj zkvs =>
        match lookupKey zkvs "name" with
        | some (.str s) => some s
        | some _ => none
        | none => some "default_sim"
      | _ => some "default_sim"
    | _ => some "default_sim"
  | some _ => some "default_sim"

/-- Species identifier cell of a catalog row: the value stored in the
`speciesID` column.  A row without the key (or a non-dict row) carries a
missing value there, which pandas `drop_duplicates` treats as equal to any
other missing value. -/
def speciesKey (row : JSON) : Option JSON :=
  match row with
  | .obj kvs => lookupKey kvs "speciesID"
  | _ => none

/-- Whether a catalog row actually carries a `speciesID` entry (so that
the `speciesID` column exists once the row is in the frame). -/
def hasSpeciesKey (row : JSON) : Bool := (speciesKey row).isSome

/-- Line 60, `species_df.drop_duplicates(subset=["speciesID"])`: keep the
first row for each `speciesID` cell value (missing values compare equal,
as in pandas).  `seen` accumulates the key cells already kept. -/
def drop_duplicates (seen : List (Option JSON)) : List JSON → List JSON
  | [] => []
  | r :: rs =>
    if speciesKey r ∈ seen then drop_duplicates seen rs
    else r :: drop_duplicates (speciesKey r :: seen) rs

/-- Key cells `seen` has grown to after `drop_duplicates seen l`. -/
def seenAfter (seen : List (Option JSON)) : List JSON → List (Option JSON)
  | [] => seen
  | r :: rs =>
    if speciesKey r ∈ seen then seenAfter seen rs
    else seenAfter (speciesKey r :: seen) rs

/-- Lines 51 to 53: the `recordedSpecies` rows of `speciesData.json`.
`none` models a raised (and caught) exception: member missing, JSON parse
failure, `.get` on a non-dict, or `pd.DataFrame` called on a truthy
non-list value.  `some []` models the falsy branch at line 54 (no rows).
The rare dict-of-lists value that `pd.DataFrame` accepts is out of model
(its rows are synthetic either way). -/
def extractRecordedSpecies (m : Option JSON) : Option (List JSON) :=
  match m with
  | none => none
  | some (.obj kvs) =>
    match lookupKey kvs "recordedSpecies" with
    | none => some []
    | some v =>
      if jsonTruthy v then
        match v with
        | .arr l => some l
        | _ => none
      else some []
  | some _ => none

/-- Lines 50 to 65: merge newly described species into the catalog.  When
no row of the concatenated frame carries a `speciesID` entry, the column
does not exist and `drop_duplicates` raises `KeyError` — caught at line 64
AFTER `species_df` was already reassigned at lines 57 or 59, so the
un-deduplicated concatenation survives into the save at line 172. -/
def speciesStage (m : Option JSON) (species_df : List JSON) : List JSON :=
  match extractRecordedSpecies m with
  | none => species_df
  | some [] => species_df
  | some (r :: rs) =>
    let new_species := r :: rs
    let merged := if species_df.isEmpty then new_species else species_df ++ new_species
    if merged.any hasSpeciesKey then drop_duplicates [] merged
    else merged

/-- Lines 68 to 81: simulated time from `scene.bb8scene`.  The raw
`simulatedTime` value is used as is whenever `.get` yields a non-None
value (numeric or not); every caught failure — member missing, parse
failure, non-dict scene, missing key, JSON null — yields the string
sentinel `"Unknown"`. -/
def extractUpdateTime (m : Option JSON) : JSON :=
  match m with
  | none => .str "Unknown"
  | some (.obj kvs) =>
    match lookupKey kvs "simulatedTime" with
    | some .null => .str "Unknown"
    | some v => v
    | none => .str "Unknown"
  | some _ => .str "Unknown"

/-- Lines 87 to 99: the species identifier of one `bibites/*.bb8` member,
read as `bb8_data.get("genes", {}).get("speciesID")`.  `none` covers every
skipped case: unreadable or unparseable member, non-dict data, missing or
non-dict `genes`, missing `speciesID`, or a JSON null identifier. -/
def extractSpeciesID (m : Option JSON) : Option JSON :=
  match m with
  | none => none
  | some (.obj kvs) =>
    match lookupKey kvs "genes" with
    | some (.obj g) =>
      match lookupKey g "speciesID" with
      | some .null => none
      | some v => some v
      | none => none
    | some _ => none
    | none => none
  | some _ => none

/-- Model of the Python builtin `float(...)` applied to a JSON cell at
lines 138, 139, 142, 143: numbers pass through, booleans coerce to 0 or 1,
anything else raises (`none`).  Python would also parse a purely numeric
string; the archives carry plain numbers, and a string form would only
move that pellet member from the succeeding to the aborting class. -/
def jFloat (v : JSON) : Option ℚ :=
  match v with
  | .num q => some q
  | .bool b => some (if b then 1 else 0)
  | _ => none

/-- Running totals of the per-zone pellet loop (lines 129 to 134). -/
structure PelletAcc where
  meat_count : Nat
  meat_amount : ℚ
  meat_scale : ℚ
  plant_count : Nat
  plant_amount : ℚ
  plant_scale : ℚ
deriving DecidableEq

/-- Zero-initialised totals, as at lines 129 to 134. -/
def initAcc : PelletAcc := ⟨0, 0, 0, 0, 0, 0⟩

/-- Lines 135 to 143: classify and accumulate one pellet object.  `none`
models an uncaught exception inside the loop (non-dict pellet, missing
`pellet` / `material` / `amount` / `transform` / `scale`, or a cell
`float` rejects); any such exception aborts the whole pellet stage. -/
def pelletStep (acc : PelletAcc) (p : JSON) : Option PelletAcc :=
  match p with
  | .obj pkvs =>
    match lookupKey pkvs "pellet" with
    | some (.obj inner) =>
      match lookupKey inner "material", lookupKey inner "amount" with
      | some mat, some amtV =>
        match lookupKey pkvs "transform" with
        | some (.obj tr) =>
          match lookupKey tr "scale" with
          | some scV =>
            match jFloat amtV, jFloat scV with
            | some amt, some sc =>
              if mat = .str "Meat" then
                some { acc with
                        meat_count := acc.meat_count + 1,
                        meat_amount := acc.meat_amount + amt,
                        meat_scale := acc.meat_scale + sc }
              else
                some { acc with
                        plant_count := acc.plant_count + 1,
                        plant_amount := acc.plant_amount + amt,
                        plant_scale := acc.plant_scale + sc }
            | _, _ => none
          | none => none
        | _ => none
      | _, _ => none
    | _ => none
  | _ => none

/-- The inner loop of lines 135 to 143 over one zone, left to right,
aborting on the first raising pellet. -/
def zoneAccumAux (acc : PelletAcc) : List JSON → Option PelletAcc
  | [] => some acc
  | p :: ps =>
    match pelletStep acc p with
    | some acc2 => zoneAccumAux acc2 ps
    | none => none

/-- One row appended to the Zone Pellet table for one zone (lines 145 to
151 collect these columns, minus the shared `update_time`). -/
structure ZoneRow where
  zone_name : JSON
  plant_pellet_count : Nat
  plant_total_amount : ℚ
  plant_avg_scale : ℚ
  meat_pellet_count : Nat
  meat_total_amount : ℚ
  meat_avg_scale : ℚ
deriving DecidableEq

/-- The pellet objects the inner loop of line 135 iterates for one zone:
`zone["pellets"]` must exist on a dict zone and be iterable.  `none`
models the raised `TypeError` / `KeyError` that aborts the stage. -/
def zonePelletObjs (zone : JSON) : Option (List JSON) :=
  match zone with
  | .obj zkvs =>
    match lookupKey zkvs "pellets" with
    | some v => iterElems v
    | none => none
  | _ => none

/-- Lines 128 to 151 for one zone: accumulate the pellet totals, then read
`zone["zone"]` and emit the row with the zero-count guarded average
scales.  In the Python loop the `zone["zone"]` read happens after the
inner loop; since any raise aborts the whole stage, the order does not
show in the result. -/
def zoneRecord (zone : JSON) : Option ZoneRow :=
  match zonePelletObjs zone with
  | none => none
  | some plist =>
    match zoneAccumAux initAcc plist with
    | none => none
    | some acc =>
      match zone with
      | .obj zkvs =>
        match lookupKey zkvs "zone" with
        | some zname =>
          some { zone_name := zname,
                 plant_pellet_count := acc.plant_count,
                 plant_total_amount := acc.plant_amount,
                 plant_avg_scale :=
                   if 0 < acc.plant_count then acc.plant_scale / (acc.plant_count : ℚ) else 0,
                 meat_pellet_count := acc.meat_count,
                 meat_total_amount := acc.meat_amount,
                 meat_avg_scale :=
                   if 0 < acc.meat_count then acc.meat_scale / (acc.meat_count : ℚ) else 0 }
        | none => none
      | _ => none

/-- The outer loop of line 128 over all zones, aborting on the first zone
that raises. -/
def zonesRecords : List JSON → Option (List ZoneRow)
  | [] => some []
  | z :: zs =>
    match zoneRecord z, zonesRecords zs with
    | some r, some rs => some (r :: rs)
    | _, _ => none

/-- Lines 113 to 169: the whole pellet stage.  `none` is the aborting
path (`return None` at line 169): member missing or unparseable, a
non-dict top level, a non-iterable `pellets` value, or any raise inside
the zone loop.  A missing `pellets` key defaults to `[]` and succeeds
with no rows. -/
def extractZoneRows (m : Option JSON) : Option (List ZoneRow) :=
  match m with
  | none => none
  | some (.obj kvs) =>
    match lookupKey kvs "pellets" with
    | none => some []
    | some v =>
      match iterElems v with
      | none => none
      | some zones => zonesRecords zones
  | some _ => none

/-- One row of the Population Count table (`species_counts.parquet`),
columns `update_time`, `speciesID`, `count`. -/
structure CountRow where
  update_time : JSON
  speciesID : JSON
  count : Nat
deriving DecidableEq

/-- One row of the Zone Pellet table (`pellet_data.parquet`): the shared
`update_time` column plus the per-zone columns. -/
structure PelletRow where
  update_time : JSON
  zone : ZoneRow
deriving DecidableEq

/-- The persisted rows of the three per-simulation tables. -/
structure Tables where
  species_df : List JSON
  counts_df : List CountRow
  pellet_df : List PelletRow
deriving DecidableEq

/-- Distinct values of a list in order of first occurrence (`seen` holds
values already taken). -/
def distinctsAux (seen : List JSON) : List JSON → List JSON
  | [] => []
  | x :: xs =>
    if x ∈ seen then distinctsAux seen xs
    else x :: distinctsAux (x :: seen) xs

/-- Distinct values of a list in order of first occurrence. -/
def distincts (l : List JSON) : List JSON := distinctsAux [] l

/-- Stable insertion keeping counts in descending order. -/
def insertByCountDesc (x : JSON × Nat) : List (JSON × Nat) → List (JSON × Nat)
  | [] => [x]
  | y :: ys => if y.2 < x.2 then x :: y :: ys else y :: insertByCountDesc x ys

/-- Stable sort by count, descending. -/
def sortByCountDesc : List (JSON × Nat) → List (JSON × Nat)
  | [] => []
  | x :: xs => insertByCountDesc x (sortByCountDesc xs)

/-- Line 102, `pd.Series(species_ids).value_counts()`: one pair per
distinct identifier with its number of occurrences, in descending count
order (ties in order of first occurrence).  The identifier values parsed
from JSON are hashable scalars; pandas hashing is modelled as total. -/
def value_counts (l : List JSON) : List (JSON × Nat) :=
  sortByCountDesc ((distincts l).map (fun v => (v, l.count v)))

/-- Lines 103 to 107: the block of rows built from `value_counts`, each
tagged with the resolved update time. -/
def newCountRows (t : JSON) (ids : List JSON) : List CountRow :=
  (value_counts ids).map (fun p => { update_time := t, speciesID := p.1, count := p.2 })

/-- Lines 101 to 111: append the new count rows, or leave the table alone
when no identifier was extracted (`if species_ids:`). -/
def countsStage (t : JSON) (ids : List JSON) (counts_df : List CountRow) : List CountRow :=
  if ids.isEmpty then counts_df else counts_df ++ newCountRows t ids

/-- Lines 84 to 99: the list `species_ids` after the loop over the
`bibites/*.bb8` members — one identifier per member that yields one,
skipped members contributing nothing. -/
def species_ids (a : Archive) : List JSON :=
  a.bb8Members.filterMap extractSpeciesID

/-- Lines 16 to 179, `process_zip`: one archive against the store of
per-simulation tables (the store maps a simulation name to its three
tables; `process_zip` reads and rewrites only the resolved name).  The
result is the store as persisted on disk after the call: unchanged when
the outer `try` aborts (non-string zone name) or when the pellet stage
returns early at line 169; otherwise the resolved simulation gets the
three merged tables saved at lines 172 to 174. -/
def process_zip (a : Archive) (store : String → Tables) : String → Tables :=
  match extractSimName a.settingsMember with
  | none => store
  | some sim_name =>
    let t := store sim_name
    let species_df := speciesStage a.speciesMember t.species_df
    let update_time := extractUpdateTime a.sceneMember
    let counts_df := countsStage update_time (species_ids a) t.counts_df
    match extractZoneRows a.pelletsMember with
    | none => store
    | some zrows =>
      let pellet_df := t.pellet_df ++ zrows.map (fun z => { update_time := update_time, zone := z })
      fun s =>
        if s = sim_name then
          { species_df := species_df, counts_df := counts_df, pellet_df := pellet_df }
        else store s

/-- Line 185: the archive file names a poll pass works through. -/
def zipListing (listing : List String) : List String :=
  listing.filter (fun f => f.toLower.endsWith ".zip")

/-- State threaded through one pass of the `main` loop (lines 184 to
198): the in-memory processed set, the on-disk tables, and the
`new_files_found` flag. -/
structure PassState where
  processed_zips : Finset String
  store : String → Tables
  new_files_found : Bool

/-- Lines 190 to 194: handle one listed file name.  A file already in the
processed set is skipped; otherwise it is processed and marked processed
whatever `process_zip` returned. -/
def pollStep (contents : String → Archive) (st : PassState) (filename : String) : PassState :=
  if filename ∈ st.processed_zips then st
  else
    { processed_zips := insert filename st.processed_zips,
      store := process_zip (contents filename) st.store,
      new_files_found := true }

/-- Lines 185 to 194: one full pass over the directory listing.
`contents` gives the archive behind each file name. -/
def pollPass (contents : String → Archive) (listing : List String) (processed : Finset String)
    (store : String → Tables) : PassState :=
  (zipListing listing).foldl (pollStep contents) ⟨processed, store, false⟩

/-- Lines 195 to 196 with `update_processed_log` of `dashboard/utils.py`:
the ledger file content after the pass — rewritten in full with the whole
set when `new_files_found`, untouched (`none`) otherwise. -/
def ledgerWrite (st : PassState) : Option (Finset String) :=
  if st.new_files_found then some st.processed_zips else none

/-- Species members whose stage cannot hit the caught-late `KeyError` of
line 60: either the stage does not reach `drop_duplicates` at all, or some
new row carries a `speciesID` entry, so the column exists however the
prior catalog looks. -/
def speciesMemberSafe (m : Option JSON) : Bool :=
  match extractRecordedSpecies m with
  | some (r :: rs) => (r :: rs).any hasSpeciesKey
  | _ => true

/-- Archives whose species stage cannot hit the caught-late `KeyError` of
line 60. -/
def speciesStageSafe (a : Archive) : Bool :=
  speciesMemberSafe a.speciesMember

/-- Concrete species rows for the two-archive merge example of the spec. -/
def speciesRowA1 : JSON := .obj [("speciesID", .str "1"), ("genericName", .str "AOne")]

/-- Second species row of archive A. -/
def speciesRowA2 : JSON := .obj [("speciesID", .str "2"), ("genericName", .str "ATwo")]

/-- Row of archive B reusing identifier 1 with different field values. -/
def speciesRowB1 : JSON := .obj [("speciesID", .str "1"), ("genericName", .str "BOne")]

/-- Row of archive B introducing identifier 3. -/
def speciesRowB3 : JSON := .obj [("speciesID", .str "3"), ("genericName", .str "BThree")]

/-- The `speciesData.json` member of example archive A. -/
def speciesMemberA : Option JSON :=
  some (.obj [("recordedSpecies", .arr [speciesRowA1, speciesRowA2])])

/-- The `speciesData.json` member of example archive B. -/
def speciesMemberB : Option JSON :=
  some (.obj [("recordedSpecies", .arr [speciesRowB1, speciesRowB3])])

/-- An empty store: no simulation has any persisted rows yet. -/
def emptyStore : String → Tables := fun _ => ⟨[], [], []⟩

/-- Archive whose pellet stage aborts (member missing) while the species
and count stages would both succeed and produce rows. -/
def noPelletArchive : Archive :=
  { settingsMember := none,
    speciesMember := speciesMemberA,
    sceneMember := some (.obj [("simulatedTime", .num 7)]),
    bb8Members := [some (.obj [("genes", .obj [("speciesID", .num 1)])])],
    pelletsMember := none }

/-- Archive whose `recordedSpecies` rows all lack a `speciesID` entry, and
whose pellet stage succeeds, so the un-deduplicated catalog is saved. -/
def keylessSpeciesArchive : Archive :=
  { settingsMember := none,
    speciesMember := some (.obj [("recordedSpecies", .arr [.obj [("genericName", .str "x")]])]),
    sceneMember := none,
    bb8Members := [],
    pelletsMember := some (.obj [("pellets", .arr [])]) }

/-- Meat pellet of the spec example: amount 1.0, scale 2.0. -/
def meatPelletEx : JSON :=
  .obj [("pellet", .obj [("material", .str "Meat"), ("amount", .num 1)]),
        ("transform", .obj [("scale", .num 2)])]

/-- Plant pellet of the spec example: amount 5.0, scale 1.0. -/
def plantPelletEx : JSON :=
  .obj [("pellet", .obj [("material", .str "Plant"), ("amount", .num 5)]),
        ("transform", .obj [("scale", .num 1)])]

/-- Zone "north" of the spec example with two Meat and one Plant pellet. -/
def northZoneEx : JSON :=
  .obj [("zone", .str "north"), ("pellets", .arr [meatPelletEx, meatPelletEx, plantPelletEx])]

/-- A full well-formed archive: two entities of species 1, one of species
2, one unreadable member, and the north zone pellets. -/
def wellFormedArchive : Archive :=
  { settingsMember := none,
    speciesMember := none,
    sceneMember := some (.obj [("simulatedTime", .num 7)]),
    bb8Members := [some (.obj [("genes", .obj [("speciesID", .num 1)])]),
                   some (.obj [("genes", .obj [("speciesID", .num 1)])]),
                   some (.obj [("genes", .obj [("speciesID", .num 2)])]),
                   none],
    pelletsMember := some (.obj [("pellets", .arr [northZoneEx])]) }

/-- The six-entity identifier list of the spec example. -/
def idsExample : List JSON := [.num 1, .num 1, .num 2, .num 3, .num 3, .num 3]

theorem mem_seenAfter {k : Option JSON} {seen : List (Option JSON)} (l : List JSON)
    (hk : k ∈ seen) : k ∈ seenAfter seen l := by
  induction l generalizing seen with
  | nil => simpa [seenAfter] using hk
  | cons r rs ih =>
    simp only [seenAfter]
    split
    · exact ih hk
    · exact ih (List.mem_cons_of_mem _ hk)

theorem key_mem_seenAfter {r : JSON} {l : List JSON} (seen : List (Option JSON))
    (hr : r ∈ l) : speciesKey r ∈ seenAfter seen l := by
  induction l generalizing seen with
  | nil => cases hr
  | cons x xs ih =>
    simp only [seenAfter]
    rcases List.mem_cons.mp hr with h | h
    · subst h
      split
      · exact mem_seenAfter _ (by assumption)
      · exact mem_seenAfter _ (List.mem_cons_self _ _)
    · split
      · exact ih _ h
      · exact ih _ h

theorem drop_duplicates_append (seen : List (Option JSON)) (xs ys : List JSON) :
    drop_duplicates seen (xs ++ ys)
      = drop_duplicates seen xs ++ drop_duplicates (seenAfter seen xs) ys := by
  induction xs generalizing seen with
  | nil => simp [drop_duplicates, seenAfter]
  | cons r rs ih =>
    simp only [List.cons_append, drop_duplicates, seenAfter]
    by_cases h : speciesKey r ∈ seen
    · simp only [if_pos h]
      exact ih seen
    · simp only [if_neg h, List.cons_append, List.cons.injEq, true_and]
      exact ih _

theorem drop_duplicates_eq_nil {sn : List (Option JSON)} {ys : List JSON}
    (h : ∀ y ∈ ys, speciesKey y ∈ sn) : drop_duplicates sn ys = [] := by
  induction ys with
  | nil => rfl
  | cons y ys ih =>
    simp only [drop_duplicates]
    rw [if_pos (h y (List.mem_cons_self _ _))]
    exact ih (fun z hz => h z (List.mem_cons_of_mem _ hz))

theorem drop_duplicates_idem (seen : List (Option JSON)) (l : List JSON) :
    drop_duplicates seen (drop_duplicates seen l) = drop_duplicates seen l := by
  induction l generalizing seen with
  | nil => rfl
  | cons r rs ih =>
    simp only [drop_duplicates]
    by_cases h : speciesKey r ∈ seen
    · simp only [if_pos h]
      exact ih seen
    · simp only [if_neg h, drop_duplicates, if_neg h, List.cons.injEq, true_and]
      exact ih _

theorem seenAfter_drop_duplicates (seen : List (Option JSON)) (l : List JSON) :
    seenAfter seen (drop_duplicates seen l) = seenAfter seen l := by
  induction l generalizing seen with
  | nil => rfl
  | cons r rs ih =>
    simp only [drop_duplicates, seenAfter]
    by_cases h : speciesKey r ∈ seen
    · simp only [if_pos h]
      exact ih seen
    · simp only [if_neg h, seenAfter, if_neg h]
      exact ih _

theorem drop_duplicates_absorb {xs ys : List JSON}
    (h : ∀ y ∈ ys, ∃ r ∈ xs, speciesKey r = speciesKey y) :
    drop_duplicates [] (drop_duplicates [] xs ++ ys) = drop_duplicates [] xs := by
  rw [drop_duplicates_append, drop_duplicates_idem, seenAfter_drop_duplicates]
  have hnil : drop_duplicates (seenAfter [] xs) ys = [] := by
    apply drop_duplicates_eq_nil
    intro y hy
    obtain ⟨r, hr, hk⟩ := h y hy
    exact hk ▸ key_mem_seenAfter _ hr
  rw [hnil, List.append_nil]

theorem drop_duplicates_ne_nil (x : JSON) (xs : List JSON) :
    drop_duplicates [] (x :: xs) ≠ [] := by
  simp only [drop_duplicates, List.not_mem_nil, if_false]
  exact List.cons_ne_nil _ _

theorem speciesStage_expand (m : Option JSON) (X : List JSON) (r : JSON) (rs : List JSON)
    (hE : extractRecordedSpecies m = some (r :: rs)) :
    speciesStage m X =
      (if (if X.isEmpty then r :: rs else X ++ (r :: rs)).any hasSpeciesKey
       then drop_duplicates [] (if X.isEmpty then r :: rs else X ++ (r :: rs))
       else (if X.isEmpty then r :: rs else X ++ (r :: rs))) := by
  simp only [speciesStage, hE]

theorem speciesStage_idem (m : Option JSON) (T : List JSON)
    (h : speciesMemberSafe m = true) :
    speciesStage m (speciesStage m T) = speciesStage m T := by
  unfold speciesMemberSafe at h
  cases hE : extractRecordedSpecies m with
  | none => simp [speciesStage, hE]
  | some l =>
    cases l with
    | nil => simp [speciesStage, hE]
    | cons r rs =>
      rw [hE] at h
      have h2 : (r :: rs).any hasSpeciesKey = true := h
      have hmerged_any : ∀ X : List JSON,
          ((if X.isEmpty then r :: rs else X ++ (r :: rs)).any hasSpeciesKey) = true := by
        intro X
        by_cases hX : X.isEmpty
        · rw [if_pos hX]
          exact h2
        · rw [if_neg hX, List.any_append, h2, Bool.or_true]
      have hfirst := speciesStage_expand m T r rs hE
      rw [if_pos (hmerged_any T)] at hfirst
      have hsecond := speciesStage_expand m (speciesStage m T) r rs hE
      rw [if_pos (hmerged_any (speciesStage m T))] at hsecond
      have hcons : ∃ (a : JSON) (as : List JSON),
          (if T.isEmpty then r :: rs else T ++ (r :: rs)) = a :: as := by
        cases T with
        | nil => exact ⟨r, rs, by simp⟩
        | cons t ts => exact ⟨t, ts ++ (r :: rs), by simp⟩
      obtain ⟨a, as, hM⟩ := hcons
      have hne : speciesStage m T ≠ [] := by
        rw [hfirst, hM]
        exact drop_duplicates_ne_nil a as
      have hemptyP : ¬((speciesStage m T).isEmpty = true) := fun hc =>
        hne (List.isEmpty_iff.mp hc)
      rw [if_neg hemptyP] at hsecond
      rw [hsecond, hfirst]
      apply drop_duplicates_absorb
      intro y hy
      refine ⟨y, ?_, rfl⟩
      by_cases hT : T.isEmpty
      · simpa [hT] using hy
      · simp only [hT, if_false]
        exact List.mem_append_right T hy

theorem find?_drop_duplicates (k : Option JSON) (seen : List (Option JSON)) (l : List JSON)
    (hk : k ∉ seen) :
    (drop_duplicates seen l).find? (fun r => decide (speciesKey r = k))
      = l.find? (fun r => decide (speciesKey r = k)) := by
  induction l generalizing seen with
  | nil => rfl
  | cons r rs ih =>
    simp only [drop_duplicates]
    by_cases hs : speciesKey r ∈ seen
    · rw [if_pos hs, ih seen hk]
      have hne : speciesKey r ≠ k := fun e => hk (e ▸ hs)
      rw [List.find?_cons_of_neg]
      simp [hne]
    · rw [if_neg hs]
      by_cases hrk : speciesKey r = k
      · rw [List.find?_cons_of_pos, List.find?_cons_of_pos] <;> simp [hrk]
      · rw [List.find?_cons_of_neg _ (by simp [hrk]), List.find?_cons_of_neg _ (by simp [hrk])]
        apply ih
        intro hmem
        rcases List.mem_cons.mp hmem with he | he
        · exact hrk he.symm
        · exact hk he

/-- C3: the species-catalog merge is the union of the existing catalog and
the newly described species, deduplicated by species identifier with the
existing record winning; absence of the member or of the array leaves the
catalog unchanged; and on the two-archive example the merged catalog is
exactly the rows for identifiers 1, 2, 3 with identifier 1 keeping the
fields of archive A. -/
theorem species_merge_union_first_wins :
    (∀ T : List JSON, speciesStage none T = T)
    ∧ (∀ (T : List JSON) (kvs : List (String × JSON)),
        lookupKey kvs "recordedSpecies" = none → speciesStage (some (.obj kvs)) T = T)
    ∧ (∀ (T new : List JSON) (k : Option JSON),
        (drop_duplicates [] (T ++ new)).find? (fun r => decide (speciesKey r = k))
          = ((T.find? (fun r => decide (speciesKey r = k))).or
              (new.find? (fun r => decide (speciesKey r = k)))))
    ∧ speciesStage speciesMemberB (speciesStage speciesMemberA [])
        = [speciesRowA1, speciesRowA2, speciesRowB3] := by
  refine ⟨fun T => rfl, fun T kvs hk => ?_, fun T new k => ?_, by decide⟩
  · simp [speciesStage, extractRecordedSpecies, hk]
  · rw [find?_drop_duplicates _ _ _ (List.not_mem_nil k), List.find?_append]

theorem process_zip_sim_none (a : Archive) (store : String → Tables)
    (h : extractSimName a.settingsMember = none) :
    process_zip a store = store := by
  unfold process_zip
  rw [h]

theorem process_zip_pellet_none (a : Archive) (store : String → Tables)
    (h : extractZoneRows a.pelletsMember = none) :
    process_zip a store = store := by
  unfold process_zip
  cases hN : extractSimName a.settingsMember with
  | none => rfl
  | some nm => simp [h]

theorem process_zip_expand (a : Archive) (st : String → Tables) (nm : String)
    (hN : extractSimName a.settingsMember = some nm) (zrows : List ZoneRow)
    (hZ : extractZoneRows a.pelletsMember = some zrows) :
    process_zip a st = fun s =>
      if s = nm then
        { species_df := speciesStage a.speciesMember (st nm).species_df,
          counts_df := countsStage (extractUpdateTime a.sceneMember) (species_ids a)
            (st nm).counts_df,
          pellet_df := (st nm).pellet_df
            ++ zrows.map (fun z => { update_time := extractUpdateTime a.sceneMember, zone := z }) }
      else st s := by
  simp only [process_zip, hN, hZ]

theorem countsStage_twice (t : JSON) (ids : List JSON) (c0 : List CountRow) :
    countsStage t ids (countsStage t ids c0)
      = countsStage t ids c0 ++ (countsStage t ids c0).drop c0.length := by
  unfold countsStage
  by_cases h : ids.isEmpty
  · rw [if_pos h, if_pos h, List.drop_length, List.append_nil]
  · rw [if_neg h, if_neg h, List.drop_left, List.append_assoc]

/-- C1: if the pellet stage of an archive fails for any reason, none of
the three per-simulation tables is written for that archive: the store of
persisted tables is returned byte-identical to its pre-call state, even
though the species and count stages may have succeeded in memory. -/
theorem pellet_failure_preserves_store (a : Archive) (store : String → Tables)
    (h : extractZoneRows a.pelletsMember = none) :
    process_zip a store = store :=
  process_zip_pellet_none a store h

/-- Witness for C1 at a concrete archive whose pellets member is missing
while its species and count stages succeed. -/
theorem pellet_failure_preserves_store_witness :
    extractZoneRows noPelletArchive.pelletsMember = none
    ∧ process_zip noPelletArchive emptyStore = emptyStore :=
  ⟨rfl, pellet_failure_preserves_store noPelletArchive emptyStore rfl⟩

/-- C2 counterexample: an archive whose recordedSpecies rows all lack a
speciesID makes the catalog dedup raise after the catalog was already
extended (lines 57 to 60), so reprocessing it does NOT leave the Species
Catalog unchanged: the second pass appends the row again. -/
theorem reprocess_changes_catalog_cx :
    (process_zip keylessSpeciesArchive
        (process_zip keylessSpeciesArchive emptyStore) "default_sim").species_df
      ≠ (process_zip keylessSpeciesArchive emptyStore "default_sim").species_df := by
  decide

/-- C2 amended: reprocessing an archive appends a second, duplicate copy
of every count row and every pellet row the first pass produced, and — as
long as the species stage cannot hit the caught dedup `KeyError` of line
60, i.e. some recordedSpecies row carries a speciesID entry (or the stage
produces no rows) — leaves the Species Catalog unchanged. -/
theorem reprocess_duplication (a : Archive) (st0 : String → Tables)
    (h : speciesStageSafe a = true) (s : String) :
    ((process_zip a (process_zip a st0)) s).species_df = ((process_zip a st0) s).species_df
    ∧ ((process_zip a (process_zip a st0)) s).counts_df
        = ((process_zip a st0) s).counts_df
          ++ ((process_zip a st0) s).counts_df.drop ((st0 s).counts_df.length)
    ∧ ((process_zip a (process_zip a st0)) s).pellet_df
        = ((process_zip a st0) s).pellet_df
          ++ ((process_zip a st0) s).pellet_df.drop ((st0 s).pellet_df.length) := by
  cases hN : extractSimName a.settingsMember with
  | none =>
    rw [process_zip_sim_none a st0 hN, process_zip_sim_none a st0 hN]
    exact ⟨rfl, by rw [List.drop_length, List.append_nil],
      by rw [List.drop_length, List.append_nil]⟩
  | some nm =>
    cases hZ : extractZoneRows a.pelletsMember with
    | none =>
      rw [process_zip_pellet_none a st0 hZ, process_zip_pellet_none a st0 hZ]
      exact ⟨rfl, by rw [List.drop_length, List.append_nil],
        by rw [List.drop_length, List.append_nil]⟩
    | some zrows =>
      have h1 := process_zip_expand a st0 nm hN zrows hZ
      have h2 := process_zip_expand a (process_zip a st0) nm hN zrows hZ
      by_cases hs : s = nm
      · subst hs
        have e1 : process_zip a st0 s =
            { species_df := speciesStage a.speciesMember (st0 s).species_df,
              counts_df := countsStage (extractUpdateTime a.sceneMember) (species_ids a)
                (st0 s).counts_df,
              pellet_df := (st0 s).pellet_df
                ++ zrows.map
                    (fun z => { update_time := extractUpdateTime a.sceneMember, zone := z }) } := by
          rw [h1]
          exact if_pos rfl
        have e2 : process_zip a (process_zip a st0) s =
            { species_df := speciesStage a.speciesMember (process_zip a st0 s).species_df,
              counts_df := countsStage (extractUpdateTime a.sceneMember) (species_ids a)
                (process_zip a st0 s).counts_df,
              pellet_df := (process_zip a st0 s).pellet_df
                ++ zrows.map
                    (fun z => { update_time := extractUpdateTime a.sceneMember, zone := z }) } := by
          rw [h2]
          exact if_pos rfl
        refine ⟨?_, ?_, ?_⟩
        · rw [e2]
          show speciesStage a.speciesMember (process_zip a st0 s).species_df
            = (process_zip a st0 s).species_df
          rw [e1]
          exact speciesStage_idem a.speciesMember (st0 s).species_df h
        · rw [e2]
          show countsStage (extractUpdateTime a.sceneMember) (species_ids a)
              (process_zip a st0 s).counts_df
            = (process_zip a st0 s).counts_df
              ++ (process_zip a st0 s).counts_df.drop ((st0 s).counts_df.length)
          rw [e1]
          exact countsStage_twice _ _ _
        · rw [e2]
          show (process_zip a st0 s).pellet_df
              ++ zrows.map (fun z => { update_time := extractUpdateTime a.sceneMember, zone := z })
            = (process_zip a st0 s).pellet_df
              ++ (process_zip a st0 s).pellet_df.drop ((st0 s).pellet_df.length)
          rw [e1]
          show ((st0 s).pellet_df ++ _) ++ _ = ((st0 s).pellet_df ++ _) ++ _
          rw [List.drop_left]
      · have f1 : process_zip a st0 s = st0 s := by
          rw [h1]
          exact if_neg hs
        have f2 : process_zip a (process_zip a st0) s = process_zip a st0 s := by
          rw [h2]
          exact if_neg hs
        rw [f2, f1]
        exact ⟨rfl, by rw [List.drop_length, List.append_nil],
          by rw [List.drop_length, List.append_nil]⟩

/-- Witness for the amended C2 at the well-formed concrete archive: the
safety hypothesis holds and reprocessing duplicates the appended rows. -/
theorem reprocess_duplication_witness :
    speciesStageSafe wellFormedArchive = true
    ∧ (((process_zip wellFormedArchive (process_zip wellFormedArchive emptyStore))
          "default_sim").species_df
        = ((process_zip wellFormedArchive emptyStore) "default_sim").species_df
      ∧ ((process_zip wellFormedArchive (process_zip wellFormedArchive emptyStore))
          "default_sim").counts_df
        = ((process_zip wellFormedArchive emptyStore) "default_sim").counts_df
          ++ ((process_zip wellFormedArchive emptyStore) "default_sim").counts_df.drop
              ((emptyStore "default_sim").counts_df.length)
      ∧ ((process_zip wellFormedArchive (process_zip wellFormedArchive emptyStore))
          "default_sim").pellet_df
        = ((process_zip wellFormedArchive emptyStore) "default_sim").pellet_df
          ++ ((process_zip wellFormedArchive emptyStore) "default_sim").pellet_df.drop
              ((emptyStore "default_sim").pellet_df.length)) :=
  ⟨by decide, reprocess_duplication wellFormedArchive emptyStore (by decide) "default_sim"⟩

theorem foldl_pollStep_processed (c : String → Archive) (L : List String)
    (P : Finset String) (S : String → Tables) (b : Bool) :
    (L.foldl (pollStep c) ⟨P, S, b⟩).processed_zips = P ∪ L.toFinset := by
  induction L generalizing P S b with
  | nil => simp
  | cons f fs ih =>
    simp only [List.foldl_cons, pollStep]
    by_cases h : f ∈ P
    · rw [if_pos h, ih]
      ext x
      simp only [Finset.mem_union, List.toFinset_cons, Finset.mem_insert, List.mem_toFinset]
      constructor
      · rintro (hx | hx)
        · exact Or.inl hx
        · exact Or.inr (Or.inr hx)
      · rintro (hx | hx | hx)
        · exact Or.inl hx
        · exact Or.inl (hx ▸ h)
        · exact Or.inr hx
    · rw [if_neg h, ih]
      ext x
      simp only [Finset.mem_union, Finset.mem_insert, List.toFinset_cons, List.mem_toFinset]
      tauto

theorem foldl_pollStep_flag (c : String → Archive) (L : List String)
    (P : Finset String) (S : String → Tables) (b : Bool) :
    (L.foldl (pollStep c) ⟨P, S, b⟩).new_files_found
      = (b || L.any (fun f => decide (f ∉ P))) := by
  induction L generalizing P S b with
  | nil => simp
  | cons f fs ih =>
    simp only [List.foldl_cons, pollStep, List.any_cons]
    by_cases h : f ∈ P
    · rw [if_pos h, ih]
      simp [h]
    · rw [if_neg h, ih]
      simp [h]

theorem card_union_toFinset (P : Finset String) (L : List String) (hnd : L.Nodup) :
    (P ∪ L.toFinset).card = P.card + (L.filter (fun f => decide (f ∉ P))).length := by
  induction L generalizing P with
  | nil => simp
  | cons f fs ih =>
    obtain ⟨hf, hnd2⟩ := List.nodup_cons.mp hnd
    by_cases h : f ∈ P
    · have habs : P ∪ (f :: fs).toFinset = P ∪ fs.toFinset := by
        ext x
        simp only [Finset.mem_union, List.toFinset_cons, Finset.mem_insert, List.mem_toFinset]
        constructor
        · rintro (hx | hx | hx)
          · exact Or.inl hx
          · exact Or.inl (hx ▸ h)
          · exact Or.inr hx
        · tauto
      rw [habs, ih _ hnd2, List.filter_cons]
      simp [h]
    · have hins : P ∪ (f :: fs).toFinset = insert f (P ∪ fs.toFinset) := by
        ext x
        simp only [Finset.mem_union, List.toFinset_cons, Finset.mem_insert, List.mem_toFinset]
        tauto
      have hfnot : f ∉ P ∪ fs.toFinset := by
        simp only [Finset.mem_union, List.mem_toFinset]
        rintro (hx | hx)
        · exact h hx
        · exact hf hx
      rw [hins, Finset.card_insert_of_not_mem hfnot, ih _ hnd2, List.filter_cons]
      simp [h]
      omega

/-- C7: after one poll pass, the in-memory processed set is exactly the
old set united with the listed archive names — it grows by exactly the
number of not-yet-processed names when the listing has no duplicates,
never acquires a name that was neither in the set nor listed, and does
not depend on what the archives contain (an archive is marked processed
whether or not its extraction succeeded); the ledger file is rewritten —
in full, with the whole set — exactly when at least one new name was
seen. -/
theorem poll_pass_ledger (contents : String → Archive) (listing : List String)
    (P : Finset String) (S : String → Tables)
    (hnd : (zipListing listing).Nodup) :
    (pollPass contents listing P S).processed_zips = P ∪ (zipListing listing).toFinset
    ∧ (pollPass contents listing P S).processed_zips.card
        = P.card + ((zipListing listing).filter (fun f => decide (f ∉ P))).length
    ∧ ledgerWrite (pollPass contents listing P S)
        = (if (zipListing listing).any (fun f => decide (f ∉ P))
           then some (P ∪ (zipListing listing).toFinset) else none) := by
  unfold pollPass ledgerWrite
  refine ⟨foldl_pollStep_processed _ _ _ _ _, ?_, ?_⟩
  · rw [foldl_pollStep_processed]
    exact card_union_toFinset P _ hnd
  · rw [foldl_pollStep_flag, foldl_pollStep_processed, Bool.false_or]

/-- Witness for C7 on a concrete pass: two zip names, one of them already
processed, one non-zip name that the listing filter drops. -/
theorem poll_pass_ledger_witness :
    (["a.zip", "b.txt", "c.zip"] : List String).Nodup
    ∧ ((pollPass (fun _ => wellFormedArchive) ["a.zip", "b.txt", "c.zip"]
          {"c.zip"} emptyStore).processed_zips
        = {"c.zip"} ∪ (zipListing ["a.zip", "b.txt", "c.zip"]).toFinset
      ∧ (pollPass (fun _ => wellFormedArchive) ["a.zip", "b.txt", "c.zip"]
          {"c.zip"} emptyStore).processed_zips.card
        = Finset.card {"c.zip"}
          + ((zipListing ["a.zip", "b.txt", "c.zip"]).filter
              (fun f => decide (f ∉ ({"c.zip"} : Finset String)))).length
      ∧ ledgerWrite (pollPass (fun _ => wellFormedArchive) ["a.zip", "b.txt", "c.zip"]
          {"c.zip"} emptyStore)
        = (if (zipListing ["a.zip", "b.txt", "c.zip"]).any
              (fun f => decide (f ∉ ({"c.zip"} : Finset String)))
           then some ({"c.zip"} ∪ (zipListing ["a.zip", "b.txt", "c.zip"]).toFinset)
           else none)) :=
  ⟨by decide,
   poll_pass_ledger (fun _ => wellFormedArchive) ["a.zip", "b.txt", "c.zip"]
     {"c.zip"} emptyStore ((by decide : (["a.zip", "b.txt", "c.zip"] : List String).Nodup).filter _)⟩

theorem mem_distinctsAux (seen : List JSON) (l : List JSON) (x : JSON) :
    x ∈ distinctsAux seen l ↔ x ∈ l ∧ x ∉ seen := by
  induction l generalizing seen with
  | nil => simp [distinctsAux]
  | cons y ys ih =>
    simp only [distinctsAux]
    by_cases h : y ∈ seen
    · rw [if_pos h, ih]
      simp only [List.mem_cons]
      constructor
      · rintro ⟨hx, hs⟩
        exact ⟨Or.inr hx, hs⟩
      · rintro ⟨hx | hx, hs⟩
        · exact absurd (hx ▸ h) hs
        · exact ⟨hx, hs⟩
    · rw [if_neg h]
      simp only [List.mem_cons, ih, List.mem_cons]
      constructor
      · rintro (hx | ⟨hx, hs⟩)
        · exact ⟨Or.inl hx, hx ▸ h⟩
        · exact ⟨Or.inr hx, fun hxs => hs (Or.inr hxs)⟩
      · rintro ⟨hx | hx, hs⟩
        · exact Or.inl hx
        · by_cases hxy : x = y
          · exact Or.inl hxy
          · exact Or.inr ⟨hx, fun hxs => (by
              rcases hxs with he | he
              · exact hxy he
              · exact hs he)⟩

theorem nodup_distinctsAux (seen : List JSON) (l : List JSON) :
    (distinctsAux seen l).Nodup := by
  induction l generalizing seen with
  | nil => simp [distinctsAux]
  | cons y ys ih =>
    simp only [distinctsAux]
    by_cases h : y ∈ seen
    · rw [if_pos h]
      exact ih seen
    · rw [if_neg h]
      refine List.nodup_cons.mpr ⟨?_, ih _⟩
      intro hy
      exact ((mem_distinctsAux _ _ _).mp hy).2 (List.mem_cons_self _ _)

theorem insertByCountDesc_perm (x : JSON × Nat) (l : List (JSON × Nat)) :
    (insertByCountDesc x l).Perm (x :: l) := by
  induction l with
  | nil => exact List.Perm.refl _
  | cons y ys ih =>
    simp only [insertByCountDesc]
    by_cases h : y.2 < x.2
    · rw [if_pos h]
    · rw [if_neg h]
      exact (ih.cons y).trans (List.Perm.swap x y ys)

theorem sortByCountDesc_perm (l : List (JSON × Nat)) : (sortByCountDesc l).Perm l := by
  induction l with
  | nil => exact List.Perm.refl _
  | cons x xs ih =>
    exact (insertByCountDesc_perm x (sortByCountDesc xs)).trans (ih.cons x)

theorem mem_value_counts (l : List JSON) (p : JSON × Nat) :
    p ∈ value_counts l ↔ p.1 ∈ l ∧ p.2 = l.count p.1 := by
  unfold value_counts
  rw [(sortByCountDesc_perm _).mem_iff]
  simp only [List.mem_map]
  constructor
  · rintro ⟨v, hv, rfl⟩
    exact ⟨((mem_distinctsAux [] l v).mp hv).1, rfl⟩
  · rintro ⟨h1, h2⟩
    refine ⟨p.1, (mem_distinctsAux [] l p.1).mpr ⟨h1, List.not_mem_nil _⟩, ?_⟩
    exact Prod.ext rfl h2.symm

theorem value_counts_fst_nodup (l : List JSON) :
    ((value_counts l).map Prod.fst).Nodup := by
  unfold value_counts
  refine ((sortByCountDesc_perm _).map Prod.fst).nodup_iff.mpr ?_
  rw [List.map_map]
  have : (Prod.fst ∘ fun v => (v, l.count v)) = id := rfl
  rw [this, List.map_id]
  exact nodup_distinctsAux [] l

/-- Concrete archive with six entity members carrying identifiers
1, 1, 2, 3, 3, 3 at simulated time 42. -/
def countExampleArchive : Archive :=
  { settingsMember := none,
    speciesMember := none,
    sceneMember := some (.obj [("simulatedTime", .num 42)]),
    bb8Members := [some (.obj [("genes", .obj [("speciesID", .num 1)])]),
                   some (.obj [("genes", .obj [("speciesID", .num 1)])]),
                   some (.obj [("genes", .obj [("speciesID", .num 2)])]),
                   some (.obj [("genes", .obj [("speciesID", .num 3)])]),
                   some (.obj [("genes", .obj [("speciesID", .num 3)])]),
                   some (.obj [("genes", .obj [("speciesID", .num 3)])])],
    pelletsMember := some (.obj [("pellets", .arr [])]) }

/-- C4: the count extractor emits, for the resolved simulated time of the
archive, exactly one row per distinct species identifier found among the
per-entity members (no identifier missed, none repeated), each row
counting the occurrences of its identifier; members yielding no
identifier are skipped by the extraction; zero identifiers leave the
table untouched; and on the [1,1,2,3,3,3] example the emitted block is
exactly the three rows (3,3), (1,2), (2,1) (descending count order). -/
theorem population_count_extractor_spec (a : Archive) :
    (∀ v : JSON,
      (∃ r ∈ newCountRows (extractUpdateTime a.sceneMember) (species_ids a), r.speciesID = v)
        ↔ v ∈ species_ids a)
    ∧ ((newCountRows (extractUpdateTime a.sceneMember) (species_ids a)).map
        (fun r => r.speciesID)).Nodup
    ∧ (∀ r ∈ newCountRows (extractUpdateTime a.sceneMember) (species_ids a),
        r.count = (species_ids a).count r.speciesID
        ∧ r.update_time = extractUpdateTime a.sceneMember)
    ∧ (species_ids a = [] →
        ∀ df, countsStage (extractUpdateTime a.sceneMember) (species_ids a) df = df)
    ∧ (∀ (m : Option JSON) (ms : List (Option JSON)), extractSpeciesID m = none →
        (m :: ms).filterMap extractSpeciesID = ms.filterMap extractSpeciesID)
    ∧ newCountRows (extractUpdateTime countExampleArchive.sceneMember)
        (species_ids countExampleArchive)
        = [{ update_time := .num 42, speciesID := .num 3, count := 3 },
           { update_time := .num 42, speciesID := .num 1, count := 2 },
           { update_time := .num 42, speciesID := .num 2, count := 1 }] := by
  refine ⟨?_, ?_, ?_, ?_, ?_, by decide⟩
  · intro v
    constructor
    · rintro ⟨r, hr, rfl⟩
      obtain ⟨p, hp, rfl⟩ := List.mem_map.mp hr
      exact ((mem_value_counts _ p).mp hp).1
    · intro hv
      refine ⟨{ update_time := extractUpdateTime a.sceneMember, speciesID := v,
                count := (species_ids a).count v }, ?_, rfl⟩
      exact List.mem_map.mpr ⟨(v, (species_ids a).count v),
        (mem_value_counts _ _).mpr ⟨hv, rfl⟩, rfl⟩
  · unfold newCountRows
    rw [List.map_map]
    exact value_counts_fst_nodup (species_ids a)
  · intro r hr
    obtain ⟨p, hp, rfl⟩ := List.mem_map.mp hr
    exact ⟨((mem_value_counts _ p).mp hp).2, rfl⟩
  · intro h df
    unfold countsStage
    rw [if_pos (by rw [h]; rfl)]
  · intro m ms h
    rw [List.filterMap_cons_none h]

/-- C10: every freshly emitted population-count row has a strictly
positive count — a row exists only for identifiers that occur. -/
theorem count_rows_positive (t : JSON) (ids : List JSON) (r : CountRow)
    (h : r ∈ newCountRows t ids) : 1 ≤ r.count := by
  obtain ⟨p, hp, rfl⟩ := List.mem_map.mp h
  obtain ⟨hmem, hcount⟩ := (mem_value_counts ids p).mp hp
  show 1 ≤ p.2
  rw [hcount]
  exact List.count_pos_iff.mpr hmem

/-- Witness for C10 at the [1,1,2,3,3,3] example: the row for species 2
is emitted with count 1. -/
theorem count_rows_positive_witness :
    ({ update_time := .num 42, speciesID := .num 2, count := 1 } : CountRow)
        ∈ newCountRows (.num 42) idsExample
    ∧ 1 ≤ ({ update_time := .num 42, speciesID := .num 2, count := 1 } : CountRow).count :=
  ⟨by decide, count_rows_positive (.num 42) idsExample _ (by decide)⟩

/-- The material cell the classification of line 136 reads:
`pellet["pellet"]["material"]`. -/
def pelletMaterial (p : JSON) : Option JSON :=
  match p with
  | .obj pkvs =>
    match lookupKey pkvs "pellet" with
    | some (.obj inner) => lookupKey inner "material"
    | _ => none
  | _ => none

/-- Zone with no pellets at all, for the zero-count average guard. -/
def emptyZoneEx : JSON := .obj [("zone", .str "empty"), ("pellets", .arr [])]

/-- Pellets member holding the north zone example. -/
def northPelletsMember : Option JSON := some (.obj [("pellets", .arr [northZoneEx])])

/-- The row the pellet stage emits for the north zone example. -/
def northZoneRow : ZoneRow :=
  { zone_name := .str "north",
    plant_pellet_count := 1, plant_total_amount := 5, plant_avg_scale := 1,
    meat_pellet_count := 2, meat_total_amount := 2, meat_avg_scale := 2 }

/-- The row the pellet stage emits for the empty zone. -/
def emptyZoneRow : ZoneRow :=
  { zone_name := .str "empty",
    plant_pellet_count := 0, plant_total_amount := 0, plant_avg_scale := 0,
    meat_pellet_count := 0, meat_total_amount := 0, meat_avg_scale := 0 }

theorem pelletStep_classify (acc : PelletAcc) (p : JSON) (acc2 : PelletAcc)
    (h : pelletStep acc p = some acc2) :
    (pelletMaterial p = some (.str "Meat") →
      acc2.meat_count = acc.meat_count + 1 ∧ acc2.plant_count = acc.plant_count)
    ∧ (pelletMaterial p ≠ some (.str "Meat") →
      acc2.plant_count = acc.plant_count + 1 ∧ acc2.meat_count = acc.meat_count) := by
  cases p with
  | null => simp only [pelletStep] at h; exact Option.noConfusion h
  | bool b => simp only [pelletStep] at h; exact Option.noConfusion h
  | num q => simp only [pelletStep] at h; exact Option.noConfusion h
  | str s => simp only [pelletStep] at h; exact Option.noConfusion h
  | arr l => simp only [pelletStep] at h; exact Option.noConfusion h
  | obj pkvs =>
    simp only [pelletStep] at h
    cases hpel : lookupKey pkvs "pellet" with
    | none => simp only [hpel] at h; exact Option.noConfusion h
    | some pv =>
      cases pv with
      | null => simp only [hpel] at h; exact Option.noConfusion h
      | bool b => simp only [hpel] at h; exact Option.noConfusion h
      | num q => simp only [hpel] at h; exact Option.noConfusion h
      | str s => simp only [hpel] at h; exact Option.noConfusion h
      | arr l => simp only [hpel] at h; exact Option.noConfusion h
      | obj inner =>
        simp only [hpel] at h
        cases hmat : lookupKey inner "material" with
        | none => simp only [hmat] at h; exact Option.noConfusion h
        | some mat =>
          simp only [hmat] at h
          cases hamt : lookupKey inner "amount" with
          | none => simp only [hamt] at h; exact Option.noConfusion h
          | some amtV =>
            simp only [hamt] at h
            cases htr : lookupKey pkvs "transform" with
            | none => simp only [htr] at h; exact Option.noConfusion h
            | some trv =>
              cases trv with
              | null => simp only [htr] at h; exact Option.noConfusion h
              | bool b => simp only [htr] at h; exact Option.noConfusion h
              | num q => simp only [htr] at h; exact Option.noConfusion h
              | str s => simp only [htr] at h; exact Option.noConfusion h
              | arr l => simp only [htr] at h; exact Option.noConfusion h
              | obj tr =>
                simp only [htr] at h
                cases hsc : lookupKey tr "scale" with
                | none => simp only [hsc] at h; exact Option.noConfusion h
                | some scV =>
                  simp only [hsc] at h
                  cases hfa : jFloat amtV with
                  | none => simp only [hfa] at h; exact Option.noConfusion h
                  | some amt =>
                    simp only [hfa] at h
                    cases hfs : jFloat scV with
                    | none => simp only [hfs] at h; exact Option.noConfusion h
                    | some sc =>
                      simp only [hfs] at h
                      by_cases hm : mat = JSON.str "Meat"
                      · simp only [if_pos hm, Option.some.injEq] at h
                        subst h
                        constructor
                        · intro _
                          exact ⟨rfl, rfl⟩
                        · intro hne
                          exfalso
                          apply hne
                          simp only [pelletMaterial, hpel, hmat, hm]
                      · simp only [if_neg hm, Option.some.injEq] at h
                        subst h
                        constructor
                        · intro hme
                          exfalso
                          simp only [pelletMaterial, hpel, hmat, Option.some.injEq] at hme
                          exact hm hme
                        · intro _
                          exact ⟨rfl, rfl⟩

theorem pelletStep_one_of_two (acc : PelletAcc) (p : JSON) (acc2 : PelletAcc)
    (h : pelletStep acc p = some acc2) :
    acc2.plant_count + acc2.meat_count = acc.plant_count + acc.meat_count + 1 := by
  obtain ⟨hmeat, hplant⟩ := pelletStep_classify acc p acc2 h
  by_cases hm : pelletMaterial p = some (.str "Meat")
  · obtain ⟨h1, h2⟩ := hmeat hm
    omega
  · obtain ⟨h1, h2⟩ := hplant hm
    omega

theorem zoneAccumAux_counts (ps : List JSON) (acc acc2 : PelletAcc)
    (h : zoneAccumAux acc ps = some acc2) :
    acc2.plant_count + acc2.meat_count = acc.plant_count + acc.meat_count + ps.length := by
  induction ps generalizing acc with
  | nil =>
    simp only [zoneAccumAux] at h
    injection h with h2
    subst h2
    simp
  | cons p ps ih =>
    simp only [zoneAccumAux] at h
    cases hs : pelletStep acc p with
    | none => rw [hs] at h; cases h
    | some accm =>
      rw [hs] at h
      have hstep := pelletStep_one_of_two acc p accm hs
      have htail := ih accm h
      simp only [List.length_cons]
      omega

theorem zoneRecord_fields (z : JSON) (r : ZoneRow) (h : zoneRecord z = some r) :
    ∃ (ps : List JSON) (acc : PelletAcc),
      zonePelletObjs z = some ps ∧ zoneAccumAux initAcc ps = some acc
      ∧ r.plant_pellet_count = acc.plant_count
      ∧ r.meat_pellet_count = acc.meat_count
      ∧ r.plant_total_amount = acc.plant_amount
      ∧ r.meat_total_amount = acc.meat_amount
      ∧ r.plant_avg_scale
          = (if 0 < acc.plant_count then acc.plant_scale / (acc.plant_count : ℚ) else 0)
      ∧ r.meat_avg_scale
          = (if 0 < acc.meat_count then acc.meat_scale / (acc.meat_count : ℚ) else 0) := by
  unfold zoneRecord at h
  split at h
  · cases h
  · rename_i ps hP
    split at h
    · cases h
    · rename_i acc hA
      refine ⟨ps, acc, hP, hA, ?_⟩
      split at h
      · split at h
        · rename_i zn hz
          injection h with h2
          subst h2
          exact ⟨rfl, rfl, rfl, rfl, rfl, rfl⟩
        · cases h
      · cases h

theorem zonesRecords_mem (zs : List JSON) (rs : List ZoneRow)
    (h : zonesRecords zs = some rs) (r : ZoneRow) (hr : r ∈ rs) :
    ∃ z ∈ zs, zoneRecord z = some r := by
  induction zs generalizing rs with
  | nil =>
    simp only [zonesRecords] at h
    injection h with h2
    subst h2
    cases hr
  | cons z zs ih =>
    simp only [zonesRecords] at h
    cases hz : zoneRecord z with
    | none => rw [hz] at h; cases h
    | some r0 =>
      rw [hz] at h
      cases hzs : zonesRecords zs with
      | none => rw [hzs] at h; cases h
      | some rs0 =>
        rw [hzs] at h
        injection h with h2
        subst h2
        rcases List.mem_cons.mp hr with he | he
        · exact ⟨z, List.mem_cons_self _ _, he ▸ hz⟩
        · obtain ⟨z2, hz2, hrec⟩ := ih rs0 hzs he
          exact ⟨z2, List.mem_cons_of_mem _ hz2, hrec⟩

/-- C5: every pellet is classified into exactly one of the two categories
(Meat when its material cell equals that literal, Plant otherwise), so in
every successfully processed archive each emitted zone row satisfies
plant count plus meat count equals the number of pellet objects of its
zone. -/
theorem zone_pellet_partition (m : Option JSON) (rows : List ZoneRow)
    (h : extractZoneRows m = some rows) :
    (∀ r ∈ rows, ∃ (z : JSON) (ps : List JSON),
      zoneRecord z = some r ∧ zonePelletObjs z = some ps
      ∧ r.plant_pellet_count + r.meat_pellet_count = ps.length)
    ∧ (∀ (acc : PelletAcc) (p : JSON) (acc2 : PelletAcc), pelletStep acc p = some acc2 →
        (pelletMaterial p = some (.str "Meat") →
          acc2.meat_count = acc.meat_count + 1 ∧ acc2.plant_count = acc.plant_count)
        ∧ (pelletMaterial p ≠ some (.str "Meat") →
          acc2.plant_count = acc.plant_count + 1 ∧ acc2.meat_count = acc.meat_count)) := by
  constructor
  · intro r hr
    have hzone : ∃ z, zoneRecord z = some r := by
      unfold extractZoneRows at h
      split at h
      · cases h
      · split at h
        · injection h with h2
          subst h2
          cases hr
        · split at h
          · cases h
          · rename_i zones hiter
            obtain ⟨z, _, hz⟩ := zonesRecords_mem zones rows h r hr
            exact ⟨z, hz⟩
      · cases h
    obtain ⟨z, hz⟩ := hzone
    obtain ⟨ps, acc, hP, hA, hpc, hmc, _⟩ := zoneRecord_fields z r hz
    refine ⟨z, ps, hz, hP, ?_⟩
    have := zoneAccumAux_counts ps initAcc acc hA
    rw [hpc, hmc]
    simpa [initAcc] using this
  · exact pelletStep_classify

/-- Witness for C5 at the north zone example: one Plant and two Meat
pellets, three pellet objects in total. -/
theorem zone_pellet_partition_witness :
    extractZoneRows northPelletsMember = some [northZoneRow]
    ∧ ((∀ r ∈ [northZoneRow], ∃ (z : JSON) (ps : List JSON),
        zoneRecord z = some r ∧ zonePelletObjs z = some ps
        ∧ r.plant_pellet_count + r.meat_pellet_count = ps.length)
      ∧ (∀ (acc : PelletAcc) (p : JSON) (acc2 : PelletAcc), pelletStep acc p = some acc2 →
          (pelletMaterial p = some (.str "Meat") →
            acc2.meat_count = acc.meat_count + 1 ∧ acc2.plant_count = acc.plant_count)
          ∧ (pelletMaterial p ≠ some (.str "Meat") →
            acc2.plant_count = acc.plant_count + 1 ∧ acc2.meat_count = acc.meat_count))) :=
  ⟨by
    simp [extractZoneRows, northPelletsMember, northZoneEx, meatPelletEx, plantPelletEx,
      iterElems, zonePelletObjs, zonesRecords, zoneRecord, zoneAccumAux, pelletStep, lookupKey,
      jFloat, initAcc, northZoneRow]
    norm_num,
   zone_pellet_partition northPelletsMember [northZoneRow]
     (by
       simp [extractZoneRows, northPelletsMember, northZoneEx, meatPelletEx, plantPelletEx,
         iterElems, zonePelletObjs, zonesRecords, zoneRecord, zoneAccumAux, pelletStep, lookupKey,
         jFloat, initAcc, northZoneRow]
       norm_num)⟩

/-- C6: in every emitted zone row each average scale is the summed scale
divided by the pellet count when that count is positive, and is exactly 0
when the count is 0 — the division is guarded, never undefined. -/
theorem avg_scale_zero_guard (z : JSON) (r : ZoneRow) (h : zoneRecord z = some r) :
    ∃ (ps : List JSON) (acc : PelletAcc),
      zonePelletObjs z = some ps ∧ zoneAccumAux initAcc ps = some acc
      ∧ (r.plant_pellet_count = 0 → r.plant_avg_scale = 0)
      ∧ (0 < r.plant_pellet_count →
          r.plant_avg_scale = acc.plant_scale / (r.plant_pellet_count : ℚ))
      ∧ (r.meat_pellet_count = 0 → r.meat_avg_scale = 0)
      ∧ (0 < r.meat_pellet_count →
          r.meat_avg_scale = acc.meat_scale / (r.meat_pellet_count : ℚ)) := by
  obtain ⟨ps, acc, hP, hA, hpc, hmc, _, _, hpa, hma⟩ := zoneRecord_fields z r h
  refine ⟨ps, acc, hP, hA, ?_, ?_, ?_, ?_⟩
  · intro h0
    rw [hpa, if_neg]
    rw [hpc] at h0
    omega
  · intro h0
    rw [hpa, if_pos, hpc]
    rw [hpc] at h0
    exact h0
  · intro h0
    rw [hma, if_neg]
    rw [hmc] at h0
    omega
  · intro h0
    rw [hma, if_pos, hmc]
    rw [hmc] at h0
    exact h0

/-- Witness for C6 at the empty zone (both counts 0, both averages 0). -/
theorem avg_scale_zero_guard_witness :
    zoneRecord emptyZoneEx = some emptyZoneRow
    ∧ ∃ (ps : List JSON) (acc : PelletAcc),
      zonePelletObjs emptyZoneEx = some ps ∧ zoneAccumAux initAcc ps = some acc
      ∧ (emptyZoneRow.plant_pellet_count = 0 → emptyZoneRow.plant_avg_scale = 0)
      ∧ (0 < emptyZoneRow.plant_pellet_count →
          emptyZoneRow.plant_avg_scale
            = acc.plant_scale / (emptyZoneRow.plant_pellet_count : ℚ))
      ∧ (emptyZoneRow.meat_pellet_count = 0 → emptyZoneRow.meat_avg_scale = 0)
      ∧ (0 < emptyZoneRow.meat_pellet_count →
          emptyZoneRow.meat_avg_scale
            = acc.meat_scale / (emptyZoneRow.meat_pellet_count : ℚ)) :=
  ⟨by decide, avg_scale_zero_guard emptyZoneEx emptyZoneRow (by decide)⟩

theorem newCountRows_time (t : JSON) (ids : List JSON) (r : CountRow)
    (h : r ∈ newCountRows t ids) : r.update_time = t := by
  obtain ⟨p, _, rfl⟩ := List.mem_map.mp h
  rfl

/-- C8 counterexample: a scene member whose simulatedTime field is
present but holds a non-numeric value is NOT mapped to the sentinel — the
raw value is used as the update time (only a missing or null field, a
parse failure or a missing member yield the sentinel). -/
theorem nonnumeric_time_not_sentinel_cx :
    (∀ q : ℚ, lookupKey [("simulatedTime", JSON.str "hello")] "simulatedTime"
      ≠ some (.num q))
    ∧ extractUpdateTime (some (.obj [("simulatedTime", .str "hello")])) = .str "hello"
    ∧ JSON.str "hello" ≠ JSON.str "Unknown" := by
  refine ⟨?_, rfl, by decide⟩
  intro q h
  exact JSON.noConfusion (Option.some.inj h)

/-- C8 amended: the simulated-time extractor returns the string sentinel
"Unknown" exactly on the caught failures — member missing or unparseable,
non-dict scene, simulatedTime key absent or null; any other present value
(numeric or not) is used as is.  Every count row and every pellet row the
call appends is tagged with the extracted value, hence with the sentinel
whenever the stage failed (sentinel rows break the numeric ordering of
the series downstream). -/
theorem update_time_sentinel_spec :
    (extractUpdateTime none = .str "Unknown")
    ∧ (∀ kvs, lookupKey kvs "simulatedTime" = none →
        extractUpdateTime (some (.obj kvs)) = .str "Unknown")
    ∧ (∀ kvs, lookupKey kvs "simulatedTime" = some .null →
        extractUpdateTime (some (.obj kvs)) = .str "Unknown")
    ∧ (∀ kvs v, lookupKey kvs "simulatedTime" = some v → v ≠ .null →
        extractUpdateTime (some (.obj kvs)) = v)
    ∧ (∀ (a : Archive) (st : String → Tables) (s : String) (r : CountRow),
        r ∈ ((process_zip a st) s).counts_df →
        r ∈ (st s).counts_df ∨ r.update_time = extractUpdateTime a.sceneMember)
    ∧ (∀ (a : Archive) (st : String → Tables) (s : String) (pr : PelletRow),
        pr ∈ ((process_zip a st) s).pellet_df →
        pr ∈ (st s).pellet_df ∨ pr.update_time = extractUpdateTime a.sceneMember) := by
  refine ⟨rfl, ?_, ?_, ?_, ?_, ?_⟩
  · intro kvs h
    simp [extractUpdateTime, h]
  · intro kvs h
    simp [extractUpdateTime, h]
  · intro kvs v h hv
    cases v with
    | null => exact absurd rfl hv
    | bool b => simp [extractUpdateTime, h]
    | num q => simp [extractUpdateTime, h]
    | str s => simp [extractUpdateTime, h]
    | arr l => simp [extractUpdateTime, h]
    | obj o => simp [extractUpdateTime, h]
  · intro a st s r hr
    cases hN : extractSimName a.settingsMember with
    | none =>
      rw [process_zip_sim_none a st hN] at hr
      exact Or.inl hr
    | some nm =>
      cases hZ : extractZoneRows a.pelletsMember with
      | none =>
        rw [process_zip_pellet_none a st hZ] at hr
        exact Or.inl hr
      | some zrows =>
        rw [process_zip_expand a st nm hN zrows hZ] at hr
        by_cases hs : s = nm
        · subst hs
          simp only [eq_self_iff_true, if_true] at hr
          have hr2 : r ∈ countsStage (extractUpdateTime a.sceneMember) (species_ids a)
              (st s).counts_df := hr
          unfold countsStage at hr2
          by_cases hid : (species_ids a).isEmpty
          · rw [if_pos hid] at hr2
            exact Or.inl hr2
          · rw [if_neg hid] at hr2
            rcases List.mem_append.mp hr2 with hin | hin
            · exact Or.inl hin
            · exact Or.inr (newCountRows_time _ _ _ hin)
        · simp only [hs, if_false] at hr
          exact Or.inl hr
  · intro a st s pr hpr
    cases hN : extractSimName a.settingsMember with
    | none =>
      rw [process_zip_sim_none a st hN] at hpr
      exact Or.inl hpr
    | some nm =>
      cases hZ : extractZoneRows a.pelletsMember with
      | none =>
        rw [process_zip_pellet_none a st hZ] at hpr
        exact Or.inl hpr
      | some zrows =>
        rw [process_zip_expand a st nm hN zrows hZ] at hpr
        by_cases hs : s = nm
        · subst hs
          simp only [eq_self_iff_true, if_true] at hpr
          have hpr2 : pr ∈ (st s).pellet_df
              ++ zrows.map
                  (fun z => { update_time := extractUpdateTime a.sceneMember, zone := z }) := hpr
          rcases List.mem_append.mp hpr2 with hin | hin
          · exact Or.inl hin
          · obtain ⟨z, _, rfl⟩ := List.mem_map.mp hin
            exact Or.inr rfl
        · simp only [hs, if_false] at hpr
          exact Or.inl hpr

/-- C9: the decoder pipeline of lines 24 and 25 is a total function of
the raw bytes whose output holds only printable ASCII code points (the
decode step drops undecodable bytes rather than failing, as the concrete
conjunct shows on the invalid byte 0xFF). -/
theorem clean_decode_printable :
    (∀ (bytes : List Nat) (c : Nat), c ∈ cleanDecode bytes → 0x20 ≤ c ∧ c ≤ 0x7E)
    ∧ utf8DecodeIgnore [0x41, 0xFF, 0x61] = [0x41, 0x61] := by
  constructor
  · intro bytes c h
    unfold cleanDecode removeNonPrintable at h
    have := List.mem_filter.mp h
    simpa using this.2
  · decide

/-- Witness for C9 on concrete bytes: valid ASCII survives, an invalid
byte and a non-printable control byte are gone. -/
theorem clean_decode_printable_witness :
    0x41 ∈ cleanDecode [0x41, 0xFF, 0x0A, 0xC3, 0xA9, 0x61]
    ∧ (0x20 ≤ 0x41 ∧ 0x41 ≤ 0x7E) :=
  ⟨by decide, clean_decode_printable.1 [0x41, 0xFF, 0x0A, 0xC3, 0xA9, 0x61] 0x41 (by decide)⟩
